import Mathlib

/-!
Verification of the `tramp` interception pipeline: a shallow embedding of the
configuration cascade resolver, config merger, rule matcher, substitution
mini-language, rewrite engine and hook lifecycle controller, together with
theorems settling the specification's claims about them.

Modelling conventions:
* Rust `String`/`&str` values become Lean `String`; where the Rust code
  iterates over `chars()` the embedding works on `String.data : List Char`.
* `PathBuf`/`&Path` values are kept as `String` (the code only ever compares
  their `to_string_lossy()` rendering against regexes or joins components).
* The external collaborators (the OS process spawner, the shell that runs
  hook scripts, the filesystem walk, the environment, and the search-path
  resolver) are passed in as explicit oracle arguments, mirroring the
  specification's collaborator contracts.
* The `regex` crate is an external dependency, not repository code.  It is
  modelled by the `Regex` structure: a compiled regex is a bundle of its
  observable behaviours (`isMatch`, `replaceFirst`, `replaceAll`).  A
  spec-faithful instance for literal (metacharacter-free) patterns,
  `Regex.literal`, is provided so concrete inputs can be evaluated:
  `replaceFirst` replaces the first occurrence, `replaceAll` every
  non-overlapping occurrence, scanning left to right.
-/

namespace Tramp

/-- Modelled from the spec: the compiled-regex type of the external `regex`
collaborator, as the bundle of behaviours the pipeline consumes: matching a
string, replacing the first match, and replacing every non-overlapping
match.  (Capture-group references in replacement templates are outside the
literal model below and are not needed by any claim.) -/
structure Regex where
  isMatch : String → Bool
  replaceFirst : String → String → String
  replaceAll : String → String → String

/-- Does `pat` occur as a contiguous segment of `l`? -/
def occursIn (pat : List Char) : List Char → Bool
  | [] => pat.isEmpty
  | c :: rest => pat.isPrefixOf (c :: rest) || occursIn pat rest

/-- Replace the first occurrence of `pat` in the third argument by `repl`. -/
def findReplaceFirst (pat repl : List Char) : List Char → List Char
  | [] => if pat.isEmpty then repl else []
  | c :: rest =>
    if pat.isPrefixOf (c :: rest) then repl ++ (c :: rest).drop pat.length
    else c :: findReplaceFirst pat repl rest

/-- Fuel-indexed worker replacing every non-overlapping occurrence of `pat`
(assumed non-empty) by `repl`, scanning left to right.  Each step consumes at
least one input character, so fuel `l.length` suffices. -/
def findReplaceAllAux (pat repl : List Char) : Nat → List Char → List Char
  | 0, l => l
  | _ + 1, [] => []
  | fuel + 1, c :: rest =>
    if pat.isPrefixOf (c :: rest) && !pat.isEmpty then
      repl ++ findReplaceAllAux pat repl fuel (rest.drop (pat.length - 1))
    else c :: findReplaceAllAux pat repl fuel rest

/-- Replace every non-overlapping occurrence of `pat` by `repl` (identity for
the empty pattern, which no claim exercises). -/
def findReplaceAll (pat repl : List Char) (l : List Char) : List Char :=
  if pat.isEmpty then l else findReplaceAllAux pat repl l.length l

/-- Modelled from the spec: a literal (metacharacter-free) pattern compiled by
the regex collaborator.  It matches exactly the occurrences of the pattern as
a substring; replacement ignores capture groups. -/
def Regex.literal (p : String) : Regex where
  isMatch := fun s => occursIn p.data s.data
  replaceFirst := fun input repl => String.mk (findReplaceFirst p.data repl.data input.data)
  replaceAll := fun input repl => String.mk (findReplaceAll p.data repl.data input.data)

/-- Modelled from the spec: the regex collaborator's compile function,
restricted to literal patterns (it never fails, as a literal pattern is
always a valid regex). -/
def litCompile : String → Option Regex := fun p => some (Regex.literal p)

/-- `src/error.rs` `TrampError`, with the two ad-hoc `anyhow!` errors of
`main.rs::apply_rule` ("Alternate command not found" / "Rewritten command not
found") added as variants.  Error payloads irrelevant to the claims
(`io::Error` sources, `toml` errors, …) are dropped or kept as strings. -/
inductive TrampError where
  | configNotFound (path : String)
  | configReadError (path : String)
  | configParseError (path : String)
  | invalidRegex (pattern : String) (msg : String)
  | mutuallyExclusive (option1 option2 : String)
  | hookFailed (hookPath : String)
  | hookNonZeroExit (hookPath : String) (exitCode : Int)
  | commandFailed (command : String)
  | commandNotFound (command : String)
  | homeDirectoryNotFound
  | alternateCommandNotFound (name : String)
  | rewrittenCommandNotFound (name : String)
  deriving Repr, DecidableEq

/-- `src/rules/rewriter.rs` `Substitution`: pattern, replacement, global flag. -/
structure Substitution where
  pattern : Regex
  replacement : String
  global : Bool

/-- Prepend a character to the first part of a split result (the part
currently being accumulated by `split_by_delimiter`'s loop). -/
def consHead (c : Char) : List (List Char) → List (List Char)
  | [] => [[c]]
  | p :: ps => (c :: p) :: ps

/-- `src/rules/rewriter.rs` `split_by_delimiter`: split on `delim`, where a
backslash immediately followed by the delimiter escapes it (the delimiter is
kept literally and does not split), and a backslash not followed by the
delimiter is preserved literally.  The Rust loop builds parts left to right
with an `escape_next` flag; this recursion is the same automaton. -/
def splitByDelim (delim : Char) : List Char → List (List Char)
  | [] => [[]]
  | [c] =>
    if c = '\\' then [['\\']]
    else if c = delim then [[], []]
    else [[c]]
  | c :: d :: rest =>
    if c = '\\' then
      if d = delim then consHead d (splitByDelim delim rest)
      else consHead '\\' (splitByDelim delim (d :: rest))
    else if c = delim then [] :: splitByDelim delim (d :: rest)
    else consHead c (splitByDelim delim (d :: rest))

/-- The tail of `src/rules/rewriter.rs` `Substitution::parse` after the
delimiter has been read: split the remaining characters, require at least a
pattern and a replacement segment, read the optional flags segment, and
compile the pattern through the regex collaborator's compile oracle.  The
Rust code byte-slices `&input[2..]`; this equals dropping the first two
chars (`'s'` and the delimiter) whenever the delimiter is a one-byte
(ASCII) character — for a multi-byte delimiter the Rust slice would panic,
so theorems about `parse` restrict the delimiter to ASCII. -/
def parseTail (compile : String → Option Regex) (input : String) (delim : Char)
    (rest : List Char) : Except TrampError Substitution :=
  match splitByDelim delim rest with
  | p0 :: p1 :: rest2 =>
    let patternStr := String.mk p0
    let replacement := String.mk p1
    let flags : List Char := match rest2 with | f :: _ => f | [] => []
    let global := flags.contains 'g'
    match compile patternStr with
    | some re => .ok { pattern := re, replacement := replacement, global := global }
    | none => .error (.invalidRegex patternStr "invalid pattern")
  | _ => .error (.invalidRegex input "Substitution must have pattern and replacement")

/-- `src/rules/rewriter.rs` `Substitution::parse`: reject inputs not starting
with `s` or too short to have a delimiter, then hand the delimiter and the
remaining characters to `parseTail` above (the part of the Rust function
after `let parts = split_by_delimiter(&input[2..], delimiter)`). -/
def Substitution.parse (compile : String → Option Regex) (input : String) :
    Except TrampError Substitution :=
  match input.data with
  | [] => .error (.invalidRegex input "Substitution must start with s")
  | c0 :: rest0 =>
    if c0 ≠ 's' then .error (.invalidRegex input "Substitution must start with s")
    else
      match rest0 with
      | [] => .error (.invalidRegex input "Substitution too short")
      | delim :: rest => parseTail compile input delim rest

/-- `src/rules/rewriter.rs` `Substitution::apply`: `replace_all` when the
global flag is set, `replace` (first match only) otherwise. -/
def Substitution.apply (s : Substitution) (input : String) : String :=
  if s.global then s.pattern.replaceAll input s.replacement
  else s.pattern.replaceFirst input s.replacement

/-- Rust `str::split_whitespace`: split on whitespace, discarding empty
pieces.  (`Char.isWhitespace` covers the ASCII whitespace the tool meets;
exotic Unicode whitespace is out of scope.)  `cur` holds the reversed
characters of the piece being accumulated. -/
def splitWsAux : List Char → List Char → List (List Char)
  | [], cur => if cur.isEmpty then [] else [cur.reverse]
  | c :: rest, cur =>
    if c.isWhitespace then
      if cur.isEmpty then splitWsAux rest [] else cur.reverse :: splitWsAux rest []
    else splitWsAux rest (c :: cur)

/-- Rust `str::split_whitespace` producing strings. -/
def splitWhitespace (s : String) : List String :=
  (splitWsAux s.data []).map String.mk

/-- `src/rules/rewriter.rs` `rewrite_args`: join with single spaces, apply the
substitution, re-split on whitespace. -/
def rewriteArgs (args : List String) (sub : Substitution) : List String :=
  splitWhitespace (sub.apply (String.intercalate " " args))

/-- `src/rules/rewriter.rs` `rewrite_command`: join binary and args with
spaces, apply the substitution, re-split; first token is the new binary, the
rest the new args; if nothing remains, the original binary with no args. -/
def rewriteCommand (binary : String) (args : List String) (sub : Substitution) :
    String × List String :=
  let commandStr := String.intercalate " " (binary :: args)
  let rewritten := sub.apply commandStr
  match splitWhitespace rewritten with
  | [] => (binary, [])
  | newBinary :: rest => (newBinary, rest)

/-- `src/config/types.rs` `Rule`: one user-declared policy entry.  Hook paths
are kept as strings. -/
structure Rule where
  binaryPattern : Option String := none
  cwdPattern : Option String := none
  argRewrite : Option String := none
  commandRewrite : Option String := none
  alternateCommand : Option String := none
  preHook : Option String := none
  postHook : Option String := none
  interceptHook : Option String := none
  deriving Repr, DecidableEq

/-- `src/config/types.rs` `Config`: scope flags plus a rule list. -/
structure Config where
  root : Bool := false
  noExternalLookup : Bool := false
  rootConfigLookupDisableEnvVar : Option String := none
  rules : List Rule := []
  deriving Repr, DecidableEq

/-- `src/config/types.rs` `LoadedConfig`: a parsed config plus its path. -/
structure LoadedConfig where
  config : Config
  path : String
  deriving Repr, DecidableEq

/-- `src/config/types.rs` `RuleWithSource`. -/
structure RuleWithSource where
  rule : Rule
  source : String
  deriving Repr, DecidableEq

/-- `src/config/types.rs` `MergedConfig`. -/
structure MergedConfig where
  rules : List RuleWithSource := []
  noExternalLookup : Bool := false
  deriving Repr, DecidableEq

/-- `src/config/cascade.rs` `is_env_truthy`, over an environment oracle
(`std::env::var` returning `Err` is modelled as `none`). -/
def isEnvTruthy (env : String → Option String) (varName : String) : Bool :=
  match env varName with
  | some value =>
    let lower := value.toLower
    !value.isEmpty && lower != "0" && lower != "false" && lower != "no"
  | none => false

/-- The `LoadedConfig` built for the config found in directory `dir`. -/
def mkLoaded (dir : String) (c : Config) : LoadedConfig :=
  { config := c, path := dir ++ "/.tramp.toml" }

/-- The loop of `src/config/cascade.rs` `discover_configs`: walk the
directories from the start upward (`walk` lists each directory with the
already-parsed config found there, or `none` when the directory has no
`.tramp.toml`).  Returns the loaded configs in walk order plus a flag telling
whether the walk short-circuited on `no_external_lookup` (in which case the
user config step is skipped entirely).  The Rust `skip_cascade` boolean is
only ever set and then immediately acted on within one iteration, so it is
inlined into the `root` branch. -/
def walkConfigs (acc : List LoadedConfig) :
    List (String × Option Config) → List LoadedConfig × Bool
  | [] => (acc, false)
  | (_, none) :: rest => walkConfigs acc rest
  | (dir, some c) :: rest =>
    if c.noExternalLookup then (acc ++ [mkLoaded dir c], true)
    else if c.root then (acc ++ [mkLoaded dir c], false)
    else walkConfigs (acc ++ [mkLoaded dir c]) rest

/-- `src/config/cascade.rs` `load_user_config`: skipped when any loaded
config names an environment variable that is truthy; otherwise resolve the
home directory (`none` being a fatal `HomeDirectoryNotFound`) and load
`~/.tramp.toml` when present (`some (homeDir, none)` = home directory exists
but has no config file, which is not an error). -/
def loadUserConfig (existing : List LoadedConfig) (env : String → Option String)
    (home : Option (String × Option Config)) : Except TrampError (Option LoadedConfig) :=
  if existing.any (fun l =>
      match l.config.rootConfigLookupDisableEnvVar with
      | some v => isEnvTruthy env v
      | none => false) then
    .ok none
  else
    match home with
    | none => .error .homeDirectoryNotFound
    | some (_, none) => .ok none
    | some (homeDir, some c) => .ok (some (mkLoaded homeDir c))

/-- `src/config/cascade.rs` `discover_configs` over the abstract filesystem
walk and environment oracles. -/
def discoverConfigs (walk : List (String × Option Config)) (env : String → Option String)
    (home : Option (String × Option Config)) : Except TrampError (List LoadedConfig) :=
  match walkConfigs [] walk with
  | (configs, true) => .ok configs
  | (configs, false) =>
    match loadUserConfig configs env home with
    | .error e => .error e
    | .ok none => .ok configs
    | .ok (some u) => .ok (configs ++ [u])

/-- `src/config/cascade.rs` `merge_configs`: concatenate each config's rules
in cascade order, tagging them with the source path, and OR the
`no_external_lookup` flags. -/
def mergeConfigs (configs : List LoadedConfig) : MergedConfig :=
  configs.foldl
    (fun merged loaded =>
      { rules := merged.rules ++
          loaded.config.rules.map (fun r => { rule := r, source := loaded.path }),
        noExternalLookup := merged.noExternalLookup || loaded.config.noExternalLookup })
    {}

/-- `src/rules/matcher.rs` `MatchContext`: the concrete invocation. -/
structure MatchContext where
  binaryPath : String
  cwd : String
  args : List String
  deriving Repr, DecidableEq

/-- `src/rules/matcher.rs` `CompiledRule`. -/
structure CompiledRule where
  rule : Rule
  binaryRegex : Option Regex
  cwdRegex : Option Regex
  source : String

/-- `src/rules/matcher.rs` `CompiledRule::from_rule_with_source`, over the
regex collaborator's compile oracle (compilation failure is `InvalidRegex`
naming the offending pattern). -/
def CompiledRule.fromRuleWithSource (compile : String → Option Regex)
    (rws : RuleWithSource) : Except TrampError CompiledRule := do
  let binaryRegex ← match rws.rule.binaryPattern with
    | some p => match compile p with
      | some re => pure (some re)
      | none => .error (.invalidRegex p "invalid pattern")
    | none => pure none
  let cwdRegex ← match rws.rule.cwdPattern with
    | some p => match compile p with
      | some re => pure (some re)
      | none => .error (.invalidRegex p "invalid pattern")
    | none => pure none
  pure { rule := rws.rule, binaryRegex := binaryRegex, cwdRegex := cwdRegex,
         source := rws.source }

/-- `src/rules/matcher.rs` `CompiledRule::matches`: the binary pattern, when
present, must match the binary path, and the cwd pattern, when present, must
match the working directory; an absent pattern is no constraint.  (The Rust
early-return sequence is this conjunction.) -/
def CompiledRule.matches (r : CompiledRule) (ctx : MatchContext) : Bool :=
  (match r.binaryRegex with
   | some re => re.isMatch ctx.binaryPath
   | none => true)
  &&
  (match r.cwdRegex with
   | some re => re.isMatch ctx.cwd
   | none => true)

/-- `src/rules/matcher.rs` `compile_rules`. -/
def compileRules (compile : String → Option Regex) (config : MergedConfig) :
    Except TrampError (List CompiledRule) :=
  config.rules.mapM (CompiledRule.fromRuleWithSource compile)

/-- `src/rules/matcher.rs` `find_matching_rule`: first rule in list order
that matches. -/
def findMatchingRule (rules : List CompiledRule) (ctx : MatchContext) :
    Option CompiledRule :=
  rules.find? (fun rule => rule.matches ctx)

/-- `src/hooks/executor.rs` `HookType`. -/
inductive HookType where
  | pre
  | post
  | intercept
  deriving Repr, DecidableEq

/-- `src/hooks/executor.rs` `HookType::as_str`. -/
def HookType.asStr : HookType → String
  | .pre => "pre"
  | .post => "post"
  | .intercept => "intercept"

/-- `src/hooks/executor.rs` `HookContext`. -/
structure HookContext where
  originalBinary : String
  originalArgs : List String
  cwd : String
  hookType : HookType
  executedBinary : Option String
  executedArgs : Option (List String)
  exitCode : Option Int
  deriving Repr, DecidableEq

/-- Insert a binding into an environment map (`HashMap::insert`: the new
binding shadows any previous one for the same key). -/
def envInsert (k v : String) (m : String → Option String) : String → Option String :=
  fun q => if q = k then some v else m q

/-- The `TRAMP_ORIGINAL_ARG_<i>` insertions of `build_hook_env`, one binding
per original argument, indexed from `i`. -/
def insertArgVars : List String → Nat → (String → Option String) → (String → Option String)
  | [], _, m => m
  | a :: rest, i, m =>
    insertArgVars rest (i + 1) (envInsert ("TRAMP_ORIGINAL_ARG_" ++ toString i) a m)

/-- `src/hooks/executor.rs` `build_hook_env`: the environment-variable
contract handed to every hook, as a finite map modelled by a lookup
function.  Insertions follow the source order; the `TRAMP_EXECUTED_*` and
`TRAMP_EXIT_CODE` bindings are present exactly when the corresponding
`HookContext` field is. -/
def buildHookEnv (ctx : HookContext) : String → Option String :=
  let m : String → Option String := fun _ => none
  let m := envInsert "TRAMP_ORIGINAL_BINARY" ctx.originalBinary m
  let m := envInsert "TRAMP_ORIGINAL_ARGS" (String.intercalate " " ctx.originalArgs) m
  let m := envInsert "TRAMP_ORIGINAL_ARGC" (toString ctx.originalArgs.length) m
  let m := insertArgVars ctx.originalArgs 0 m
  let m := envInsert "TRAMP_CWD" ctx.cwd m
  let m := envInsert "TRAMP_HOOK_TYPE" ctx.hookType.asStr m
  let m := match ctx.executedBinary with
    | some b => envInsert "TRAMP_EXECUTED_BINARY" b m
    | none => m
  let m := match ctx.executedArgs with
    | some as => envInsert "TRAMP_EXECUTED_ARGS" (String.intercalate " " as) m
    | none => m
  match ctx.exitCode with
  | some ec => envInsert "TRAMP_EXIT_CODE" (toString ec) m
  | none => m

/-- `ExitCode::from(code as u8)`: the Rust `as u8` cast keeps the low byte
(mathematically, the code modulo 256, also for negative values). -/
def toU8 (code : Int) : Nat :=
  (code % 256).toNat

/-- The observable outcome of a successful `handle_command` run: the final
process exit code, whether the wrapped command was actually spawned, and
the `HookContext` each hook phase was invoked with (`none` = that hook
never ran). -/
structure Outcome where
  exit : Nat
  commandExecuted : Bool
  preCtx : Option HookContext
  interceptCtx : Option HookContext
  postCtx : Option HookContext
  deriving Repr, DecidableEq

/-- `src/main.rs` `apply_rule`: exactly one rewrite strategy, in the fixed
precedence order alternate command → argument rewrite → whole-command
rewrite → pass-through; `resolve` is the search-path collaborator
(`resolve_command`). -/
def applyRule (resolve : String → Option String) (compile : String → Option Regex)
    (binaryPath : String) (args : List String) (rule : Rule) :
    Except TrampError (String × List String) :=
  match rule.alternateCommand with
  | some alternate =>
    match resolve alternate with
    | some altPath => .ok (altPath, args)
    | none => .error (.alternateCommandNotFound alternate)
  | none =>
  match rule.argRewrite with
  | some rw =>
    match Substitution.parse compile rw with
    | .error e => .error e
    | .ok sub => .ok (binaryPath, rewriteArgs args sub)
  | none =>
  match rule.commandRewrite with
  | some rw =>
    match Substitution.parse compile rw with
    | .error e => .error e
    | .ok sub =>
      let rewritten := rewriteCommand binaryPath args sub
      match resolve rewritten.1 with
      | some newBinary => .ok (newBinary, rewritten.2)
      | none => .error (.rewrittenCommandNotFound rewritten.1)
  | none => .ok (binaryPath, args)

/-- `src/main.rs` `handle_command`, from the command-line arguments to the
final exit code, with the external collaborators as oracles:
`resolve` is `resolve_command`; `pre`, `intercept` and `post` are the
shell-collaborator results for the respective hook script (`.error` = the
interpreter could not be spawned, `.ok c` = the script exited with code `c`,
where `execute_hook` turns a signal-terminated script into `-1`);
`exec` is the process collaborator for the wrapped command (`.ok none` =
exited without an exit code, e.g. killed by a signal).  The post-hook
result is deliberately ignored apart from a warning, as in the source. -/
def handleCommand (rules : List CompiledRule) (commandName : String)
    (commandArgs : List String) (cwd : String)
    (resolve : String → Option String) (compile : String → Option Regex)
    (pre intercept post : Except Unit Int) (exec : Except Unit (Option Int)) :
    Except TrampError Outcome :=
  match resolve commandName with
  | none => .error (.commandNotFound commandName)
  | some binaryPath =>
    let ctx : MatchContext := { binaryPath := binaryPath, cwd := cwd, args := commandArgs }
    let matchedRule := findMatchingRule rules ctx
    let applied : Except TrampError (String × List String) :=
      match matchedRule with
      | some r => applyRule resolve compile binaryPath commandArgs r.rule
      | none => .ok (binaryPath, commandArgs)
    match applied with
    | .error e => .error e
    | .ok (finalBinary, finalArgs) =>
      match matchedRule with
      | none =>
        match exec with
        | .error _ => .error (.commandFailed finalBinary)
        | .ok status =>
          let exitCode : Int := status.getD 1
          .ok { exit := toU8 exitCode, commandExecuted := true,
                preCtx := none, interceptCtx := none, postCtx := none }
      | some r =>
        let preStep : Except TrampError (Option HookContext) :=
          match r.rule.preHook with
          | none => .ok none
          | some ph =>
            let hookCtx : HookContext :=
              { originalBinary := binaryPath, originalArgs := commandArgs, cwd := cwd,
                hookType := .pre, executedBinary := none, executedArgs := none,
                exitCode := none }
            match pre with
            | .error _ => .error (.hookFailed ph)
            | .ok code =>
              if code ≠ 0 then .error (.hookNonZeroExit ph code)
              else .ok (some hookCtx)
        match preStep with
        | .error e => .error e
        | .ok preCtx =>
          match r.rule.interceptHook with
          | some ih =>
            let hookCtx : HookContext :=
              { originalBinary := binaryPath, originalArgs := commandArgs, cwd := cwd,
                hookType := .intercept, executedBinary := some finalBinary,
                executedArgs := some finalArgs, exitCode := none }
            match intercept with
            | .error _ => .error (.hookFailed ih)
            | .ok code =>
              .ok { exit := toU8 code, commandExecuted := false,
                    preCtx := preCtx, interceptCtx := some hookCtx, postCtx := none }
          | none =>
            match exec with
            | .error _ => .error (.commandFailed finalBinary)
            | .ok status =>
              let exitCode : Int := status.getD 1
              let postCtx : Option HookContext :=
                match r.rule.postHook with
                | some _ =>
                  some { originalBinary := binaryPath, originalArgs := commandArgs,
                         cwd := cwd, hookType := .post,
                         executedBinary := some finalBinary,
                         executedArgs := some finalArgs, exitCode := some exitCode }
                | none => none
              .ok { exit := toU8 exitCode, commandExecuted := true,
                    preCtx := preCtx, interceptCtx := none, postCtx := postCtx }

/-- `src/main.rs` `main`: a pipeline error prints a message and yields
`ExitCode::FAILURE` (1); a successful run yields the pipeline's exit code. -/
def mainExit (result : Except TrampError Outcome) : Nat :=
  match result with
  | .ok o => o.exit
  | .error _ => 1

/-! ### Helper lemmas -/

/-- `List.find?` returns `a` exactly when `a` is the first element
satisfying the predicate: everything before it fails the predicate. -/
theorem find?_eq_some_first {α : Type} (p : α → Bool) :
    ∀ (l : List α) (a : α), l.find? p = some a ↔
      ∃ l₁ l₂, l = l₁ ++ a :: l₂ ∧ p a = true ∧ ∀ x ∈ l₁, p x = false := by
  intro l
  induction l with
  | nil => intro a; simp
  | cons b t ih =>
    intro a
    by_cases hp : p b = true
    · rw [List.find?_cons_of_pos _ hp]
      constructor
      · intro h
        obtain rfl : b = a := by injection h
        exact ⟨[], t, rfl, hp, by simp⟩
      · rintro ⟨l₁, l₂, heq, hpa, hall⟩
        cases l₁ with
        | nil =>
          injection heq with h1 h2
          subst h1
          rfl
        | cons c l₁' =>
          rw [List.cons_append] at heq
          injection heq with h1 h2
          subst h1
          exact absurd hp (by simp [hall b (by simp)])
    · rw [List.find?_cons_of_neg _ hp, ih]
      constructor
      · rintro ⟨l₁, l₂, rfl, hpa, hall⟩
        refine ⟨b :: l₁, l₂, rfl, hpa, ?_⟩
        intro x hx
        rcases List.mem_cons.mp hx with rfl | hx'
        · exact Bool.eq_false_iff.mpr hp
        · exact hall x hx'
      · rintro ⟨l₁, l₂, heq, hpa, hall⟩
        cases l₁ with
        | nil =>
          injection heq with h1 h2
          subst h1
          exact absurd hpa hp
        | cons c l₁' =>
          rw [List.cons_append] at heq
          injection heq with h1 h2
          subst h1
          subst h2
          exact ⟨l₁', l₂, rfl, hpa, fun x hx => hall x (List.mem_cons_of_mem _ hx)⟩

/-! ### Claims about the rule matcher (C1, C10) -/

/-- C1: for every compiled rule list (in cascade order) and every
`MatchContext`, the matcher returns the first rule in list order whose
binary pattern (if present) matches the binary path and whose cwd pattern
(if present) matches the working directory; a rule with no pattern on an
axis matches unconditionally on that axis, so a rule with neither pattern
matches every context; once an earlier rule matches, later rules are never
selected; when no rule matches, the result is `none`, not an error. -/
theorem find_matching_rule_first_match_wins (rules : List CompiledRule)
    (ctx : MatchContext) :
    (∀ r, findMatchingRule rules ctx = some r ↔
       ∃ l₁ l₂, rules = l₁ ++ r :: l₂ ∧ r.matches ctx = true ∧
         ∀ x ∈ l₁, x.matches ctx = false)
    ∧ (∀ r : CompiledRule, r.matches ctx = true ↔
         (∀ re, r.binaryRegex = some re → re.isMatch ctx.binaryPath = true) ∧
         (∀ re, r.cwdRegex = some re → re.isMatch ctx.cwd = true))
    ∧ (∀ r : CompiledRule, r.binaryRegex = none → r.cwdRegex = none →
         r.matches ctx = true)
    ∧ (findMatchingRule rules ctx = none ↔ ∀ r ∈ rules, r.matches ctx = false) := by
  refine ⟨fun r => find?_eq_some_first _ rules r, fun r => ?_, fun r h1 h2 => ?_, ?_⟩
  · unfold CompiledRule.matches
    cases hb : r.binaryRegex <;> cases hc : r.cwdRegex <;>
      simp [Bool.and_eq_true]
  · simp [CompiledRule.matches, h1, h2]
  · unfold findMatchingRule
    rw [List.find?_eq_none]
    constructor
    · intro h r hr
      exact Bool.eq_false_iff.mpr (h r hr)
    · intro h r hr
      simp [h r hr]

/-- A concrete compiled rule whose binary pattern is the literal `cargo`. -/
def exCargoRule : CompiledRule :=
  { rule := {}, binaryRegex := some (Regex.literal "cargo"), cwdRegex := none,
    source := "a" }

/-- A concrete compiled rule with no patterns (matches everything). -/
def exCatchAllRule : CompiledRule :=
  { rule := {}, binaryRegex := none, cwdRegex := none, source := "b" }

/-- A concrete invocation of `/bin/cargo` from `/p`. -/
def exCargoCtx : MatchContext :=
  { binaryPath := "/bin/cargo", cwd := "/p", args := [] }

/-- Witness for C1 at a concrete rule list and context: a list of two rules
both matching the context returns the first. -/
theorem find_matching_rule_first_match_wins_witness :
    (findMatchingRule [exCargoRule, exCatchAllRule] exCargoCtx).map
        (fun r => r.source) = some "a" := by
  have h := (find_matching_rule_first_match_wins [exCargoRule, exCatchAllRule]
    exCargoCtx).1
  have hfind := (h exCargoRule).mpr
    ⟨[], [exCatchAllRule], rfl, by decide, by simp⟩
  rw [hfind]
  rfl

/-- C10: rule matching never inspects the argument vector — two contexts
agreeing on binary path and cwd produce identical per-rule match results and
the same selected rule. -/
theorem matching_independent_of_args (rules : List CompiledRule)
    (r : CompiledRule) (ctx1 ctx2 : MatchContext)
    (hb : ctx1.binaryPath = ctx2.binaryPath) (hc : ctx1.cwd = ctx2.cwd) :
    r.matches ctx1 = r.matches ctx2
    ∧ findMatchingRule rules ctx1 = findMatchingRule rules ctx2 := by
  obtain ⟨b1, c1, a1⟩ := ctx1
  obtain ⟨b2, c2, a2⟩ := ctx2
  simp only [MatchContext.mk.injEq] at hb hc
  subst hb; subst hc
  constructor
  · rfl
  · rfl

/-! ### Claims about the cascade resolver (C4, C7) -/

/-- The `LoadedConfig`s produced from a walk segment containing no
short-circuiting flags: one per directory holding a config. -/
def loadsOf (pre : List (String × Option Config)) : List LoadedConfig :=
  pre.filterMap (fun e => e.2.map (mkLoaded e.1))

/-- Walking over a benign segment (no config present sets
`no_external_lookup` or `root`) just accumulates its configs. -/
theorem walkConfigs_over_benign :
    ∀ (pre : List (String × Option Config)) (acc : List LoadedConfig)
      (l : List (String × Option Config)),
      (∀ e ∈ pre, ∀ cc, e.2 = some cc →
        cc.noExternalLookup = false ∧ cc.root = false) →
      walkConfigs acc (pre ++ l) = walkConfigs (acc ++ loadsOf pre) l := by
  intro pre
  induction pre with
  | nil =>
    intro acc l h
    simp [loadsOf]
  | cons e pre' ih =>
    intro acc l h
    obtain ⟨dir, oc⟩ := e
    cases oc with
    | none =>
      rw [List.cons_append]
      show walkConfigs acc (pre' ++ l) = _
      rw [ih acc l (fun e he cc hc => h e (List.mem_cons_of_mem _ he) cc hc)]
      simp [loadsOf]
    | some cc =>
      have hcc := h (dir, some cc) (List.mem_cons_self _ _) cc rfl
      rw [List.cons_append]
      simp only [walkConfigs, hcc.1, hcc.2, Bool.false_eq_true, if_false]
      rw [ih (acc ++ [mkLoaded dir cc]) l
        (fun e he c2 hc => h e (List.mem_cons_of_mem _ he) c2 hc)]
      simp [loadsOf, List.append_assoc]

/-- C7: a config setting `root` stops the upward walk after its directory,
but the user-level config lookup still runs afterward; the user config is
skipped exactly when some already-loaded config names an environment
variable whose current value is truthy; truthy means non-empty and not
case-insensitively `0`, `false` or `no` (an unset variable is not truthy);
and a missing user config file is not an error (while a missing home
directory is). -/
theorem cascade_root_stops_walk_not_user_lookup
    (pre rest : List (String × Option Config)) (d : String) (c : Config)
    (env : String → Option String) (home : Option (String × Option Config))
    (hben : ∀ e ∈ pre, ∀ cc, e.2 = some cc →
      cc.noExternalLookup = false ∧ cc.root = false)
    (hroot : c.root = true) (hnel : c.noExternalLookup = false) :
    (discoverConfigs (pre ++ (d, some c) :: rest) env home
       = discoverConfigs (pre ++ [(d, some c)]) env home)
    ∧ ((loadsOf pre ++ [mkLoaded d c]).any (fun l =>
          match l.config.rootConfigLookupDisableEnvVar with
          | some v => isEnvTruthy env v
          | none => false) = true →
        discoverConfigs (pre ++ (d, some c) :: rest) env home
          = .ok (loadsOf pre ++ [mkLoaded d c]))
    ∧ ((loadsOf pre ++ [mkLoaded d c]).any (fun l =>
          match l.config.rootConfigLookupDisableEnvVar with
          | some v => isEnvTruthy env v
          | none => false) = false →
        (home = none →
           discoverConfigs (pre ++ (d, some c) :: rest) env home
             = .error .homeDirectoryNotFound)
        ∧ (∀ hd, home = some (hd, none) →
             discoverConfigs (pre ++ (d, some c) :: rest) env home
               = .ok (loadsOf pre ++ [mkLoaded d c]))
        ∧ (∀ hd u, home = some (hd, some u) →
             discoverConfigs (pre ++ (d, some c) :: rest) env home
               = .ok (loadsOf pre ++ [mkLoaded d c] ++ [mkLoaded hd u])))
    ∧ (∀ v, isEnvTruthy env v = true ↔
         ∃ s, env v = some s ∧ s ≠ "" ∧ s.toLower ≠ "0" ∧ s.toLower ≠ "false"
           ∧ s.toLower ≠ "no") := by
  have hwalk : walkConfigs [] (pre ++ (d, some c) :: rest)
      = (loadsOf pre ++ [mkLoaded d c], false) := by
    rw [walkConfigs_over_benign pre [] _ hben]
    simp [walkConfigs, hnel, hroot]
  have hwalk1 : walkConfigs [] (pre ++ [(d, some c)])
      = (loadsOf pre ++ [mkLoaded d c], false) := by
    rw [walkConfigs_over_benign pre [] _ hben]
    simp [walkConfigs, hnel, hroot]
  refine ⟨?_, ?_, ?_, ?_⟩
  · unfold discoverConfigs
    rw [hwalk, hwalk1]
  · intro hskip
    simp [discoverConfigs, loadUserConfig, hwalk, hskip]
  · intro hnoskip
    refine ⟨?_, ?_, ?_⟩
    · intro hh
      subst hh
      simp [discoverConfigs, loadUserConfig, hwalk, hnoskip]
    · intro hd hh
      subst hh
      simp [discoverConfigs, loadUserConfig, hwalk, hnoskip]
    · intro hd u hh
      subst hh
      simp [discoverConfigs, loadUserConfig, hwalk, hnoskip]
  · intro v
    cases henv : env v with
    | none => simp [isEnvTruthy, henv]
    | some s =>
      simp only [isEnvTruthy, henv, Bool.and_eq_true, Bool.not_eq_true',
        bne_iff_ne, ne_eq, Option.some.injEq]
      constructor
      · rintro ⟨⟨⟨hempty, h0⟩, hfalse⟩, hno⟩
        refine ⟨s, rfl, ?_, h0, hfalse, hno⟩
        intro he
        rw [he] at hempty
        exact absurd hempty (by decide)
      · rintro ⟨s', hs', hne, h0, hfalse, hno⟩
        subst hs'
        refine ⟨⟨⟨?_, h0⟩, hfalse⟩, hno⟩
        rw [Bool.eq_false_iff]
        intro ht
        exact hne ((String.isEmpty_iff s).mp ht)

/-- A config that only sets `root`. -/
def cfgRoot : Config := { root := true }

/-- Witness for C7: a concrete walk whose second directory sets `root` —
the deeper entry below it is never reached, no loaded config names a
disable variable, the home directory exists but holds no config file, and
the result is exactly the one loaded config with no error. -/
theorem cascade_root_stops_walk_not_user_lookup_witness :
    discoverConfigs [("/a", none), ("/r", some cfgRoot), ("/z", some cfgRoot)]
        (fun _ => none) (some ("/home/u", none))
      = .ok [mkLoaded "/r" cfgRoot] := by
  have h := cascade_root_stops_walk_not_user_lookup
    [("/a", none)] [("/z", some cfgRoot)] "/r" cfgRoot
    (fun _ => none) (some ("/home/u", none))
    (by
      intro e he cc hc
      rw [List.mem_singleton] at he
      subst he
      exact Option.noConfusion hc)
    rfl rfl
  exact (h.2.2.1 (by decide)).2.1 "/home/u" rfl

/-- A deep directory's plain config, used to exhibit the
`no_external_lookup` accumulation behaviour. -/
def cfgDeep : Config := { rules := [{ binaryPattern := some "deep" }] }

/-- An ancestor config setting `no_external_lookup`. -/
def cfgTeam : Config :=
  { noExternalLookup := true, rules := [{ binaryPattern := some "team" }] }

/-- C4 (counter-evidence): when a deeper directory's config has already been
loaded, a later config setting `no_external_lookup` stops the walk and the
user lookup but the result still contains the deeper config's rules before
its own — not "only that one config".  The home-directory oracle is `none`
here, so the `.ok` result also shows the user lookup was never consulted. -/
theorem no_external_lookup_keeps_deeper_configs :
    discoverConfigs [("/repo/sub", some cfgDeep), ("/repo", some cfgTeam)]
        (fun _ => none) none
      = .ok [mkLoaded "/repo/sub" cfgDeep, mkLoaded "/repo" cfgTeam]
    ∧ (mergeConfigs [mkLoaded "/repo/sub" cfgDeep, mkLoaded "/repo" cfgTeam]).rules.map
        (fun rws => rws.rule.binaryPattern)
      = [some "deep", some "team"] := by
  constructor
  · rfl
  · rfl

/-! ### Claims about the substitution mini-language (C8, C9) -/

/-- `parse` on an empty input: rejected (does not start with `s`). -/
theorem parse_data_nil (compile : String → Option Regex) (input : String)
    (hd : input.data = []) :
    Substitution.parse compile input
      = .error (.invalidRegex input "Substitution must start with s") := by
  unfold Substitution.parse
  rw [hd]

/-- `parse` on an input not starting with `s`: rejected. -/
theorem parse_data_not_s (compile : String → Option Regex) (input : String)
    (c0 : Char) (rest0 : List Char) (hd : input.data = c0 :: rest0)
    (hc0 : c0 ≠ 's') :
    Substitution.parse compile input
      = .error (.invalidRegex input "Substitution must start with s") := by
  unfold Substitution.parse
  rw [hd]
  exact if_pos hc0

/-- `parse` on the one-character input `s`: too short to hold a delimiter. -/
theorem parse_data_one (compile : String → Option Regex) (input : String)
    (hd : input.data = ['s']) :
    Substitution.parse compile input
      = .error (.invalidRegex input "Substitution too short") := by
  unfold Substitution.parse
  rw [hd]
  rfl

/-- `parse` on an input of shape `s<delim><rest>` hands off to `parseTail`. -/
theorem parse_data_shape (compile : String → Option Regex) (input : String)
    (delim : Char) (rest : List Char) (hd : input.data = 's' :: delim :: rest) :
    Substitution.parse compile input = parseTail compile input delim rest := by
  unfold Substitution.parse
  rw [hd]
  rfl

/-- `parseTail` with fewer than two delimiter-separated segments: rejected. -/
theorem parseTail_short (compile : String → Option Regex) (input : String)
    (delim : Char) (rest : List Char)
    (hlen : (splitByDelim delim rest).length < 2) :
    parseTail compile input delim rest
      = .error (.invalidRegex input "Substitution must have pattern and replacement") := by
  unfold parseTail
  cases hs : splitByDelim delim rest with
  | nil => rfl
  | cons p0 ps =>
    cases ps with
    | nil => rfl
    | cons p1 rest2 =>
      rw [hs, List.length_cons, List.length_cons] at hlen
      omega

/-- `parseTail` with at least two segments: compile the first segment as the
pattern, take the second as the replacement, and read the global flag from
the optional third segment. -/
theorem parseTail_parts (compile : String → Option Regex) (input : String)
    (delim : Char) (rest : List Char) (p0 p1 : List Char)
    (rest2 : List (List Char))
    (hsp : splitByDelim delim rest = p0 :: p1 :: rest2) :
    parseTail compile input delim rest =
      match compile (String.mk p0) with
      | some re => .ok { pattern := re, replacement := String.mk p1,
                         global := (rest2.headD []).contains 'g' }
      | none => .error (.invalidRegex (String.mk p0) "invalid pattern") := by
  unfold parseTail
  rw [hsp]
  cases rest2 <;> rfl

/-- C8: substitution parsing fails exactly when the input does not start
with `s`, is too short to contain a delimiter after the `s`, yields fewer
than two delimiter-separated segments, or the pattern segment fails to
compile; a backslash immediately before the delimiter escapes it (so
`s/foo\/bar/baz/` has literal pattern `foo/bar`), while a backslash not
followed by the delimiter is preserved literally.  The delimiter is
restricted to ASCII, where the Rust byte slice `&input[2..]` coincides with
dropping the first two characters. -/
theorem substitution_parse_failure_iff (compile : String → Option Regex)
    (input : String)
    (hascii : ∀ d, input.data.get? 1 = some d → d.toNat < 128) :
    ((Substitution.parse compile input).isOk = false ↔
      input.data.head? ≠ some 's'
      ∨ input.data.length < 2
      ∨ (∃ d rest, input.data = 's' :: d :: rest ∧
           (splitByDelim d rest).length < 2)
      ∨ (∃ d rest p0 p1 ps, input.data = 's' :: d :: rest ∧
           splitByDelim d rest = p0 :: p1 :: ps ∧
           compile (String.mk p0) = none))
    ∧ Substitution.parse litCompile "s/foo\\/bar/baz/"
        = .ok { pattern := Regex.literal "foo/bar", replacement := "baz",
                global := false }
    ∧ Substitution.parse litCompile "s/a\\b/c/"
        = .ok { pattern := Regex.literal "a\\b", replacement := "c",
                global := false } := by
  refine ⟨?_, by rfl, by rfl⟩
  cases hd : input.data with
  | nil =>
    rw [parse_data_nil compile input hd]
    exact iff_of_true rfl (Or.inl (by simp))
  | cons c0 rest0 =>
    by_cases hc0 : c0 = 's'
    · subst hc0
      cases rest0 with
      | nil =>
        rw [parse_data_one compile input hd]
        exact iff_of_true rfl (Or.inr (Or.inl (by decide)))
      | cons delim rest =>
        rw [parse_data_shape compile input delim rest hd]
        by_cases hlen2 : (splitByDelim delim rest).length < 2
        · rw [parseTail_short compile input delim rest hlen2]
          exact iff_of_true rfl (Or.inr (Or.inr (Or.inl ⟨delim, rest, rfl, hlen2⟩)))
        · obtain ⟨p0, p1, rest2, hsp⟩ :
              ∃ p0 p1 rest2, splitByDelim delim rest = p0 :: p1 :: rest2 := by
            cases hs : splitByDelim delim rest with
            | nil => exact absurd (by rw [hs]; decide) hlen2
            | cons a as =>
              cases as with
              | nil => exact absurd (by rw [hs]; simp) hlen2
              | cons b bs => exact ⟨a, b, bs, rfl⟩
          rw [parseTail_parts compile input delim rest p0 p1 rest2 hsp]
          cases hcomp : compile (String.mk p0) with
          | none =>
            exact iff_of_true rfl (Or.inr (Or.inr (Or.inr
              ⟨delim, rest, p0, p1, rest2, rfl, hsp, hcomp⟩)))
          | some re =>
            refine iff_of_false (by simp [Except.isOk, Except.toBool]) ?_
            rintro (h | h | ⟨d, r, hdr, hlenx⟩ |
              ⟨d, r, q0, q1, qs, hdr, hspl, hcomp2⟩)
            · exact h rfl
            · rw [List.length_cons, List.length_cons] at h
              omega
            · injection hdr with h1 h2
              injection h2 with h3 h4
              subst h3
              subst h4
              exact hlen2 hlenx
            · injection hdr with h1 h2
              injection h2 with h3 h4
              subst h3
              subst h4
              rw [hsp] at hspl
              injection hspl with h5 h6
              subst h5
              rw [hcomp] at hcomp2
              exact Option.noConfusion hcomp2
    · rw [parse_data_not_s compile input c0 rest0 hd hc0]
      exact iff_of_true rfl (Or.inl (by simp [hc0]))

/-- Witness for C8 at concrete inputs: `"foo/bar/"` does not start with `s`
and is rejected, `"s/p/r"` parses. -/
theorem substitution_parse_failure_iff_witness :
    ((Substitution.parse litCompile "foo/bar/").isOk = false
      ∧ (Substitution.parse litCompile "s/p/r").isOk = true) := by
  constructor
  · exact (substitution_parse_failure_iff litCompile "foo/bar/"
      (by decide)).1.mpr (Or.inl (by decide))
  · have h := (substitution_parse_failure_iff litCompile "s/p/r" (by decide)).1
    by_contra hne
    have hfalse : (Substitution.parse litCompile "s/p/r").isOk = false := by
      revert hne
      cases (Substitution.parse litCompile "s/p/r").isOk <;> simp
    rcases h.mp hfalse with hbad | hbad | ⟨d, rest, hdr, hlen⟩ | ⟨d, rest, p0, p1, ps, hdr, hsp, hcomp⟩
    · exact hbad (by decide)
    · exact absurd hbad (by decide)
    · rw [show ("s/p/r" : String).data = 's' :: '/' :: "p/r".data from rfl] at hdr
      injection hdr with h1 h2
      injection h2 with h3 h4
      subst h3
      subst h4
      exact absurd hlen (by decide)
    · simp [litCompile] at hcomp

/-- C9: applying a parsed substitution satisfies the round-trip
`apply (parse "s/X/Y/") "X" = "Y"`; when the parsed flags segment contains
`g`, `apply` is `replace_all` (every non-overlapping match), otherwise
`replace` (first match only) — shown structurally for every substitution
and concretely on literal patterns with several occurrences. -/
theorem substitution_apply_roundtrip_and_global (s : Substitution) :
    ((Substitution.parse litCompile "s/X/Y/").map (fun s => s.apply "X") = .ok "Y")
    ∧ (s.global = true → ∀ input,
         s.apply input = s.pattern.replaceAll input s.replacement)
    ∧ (s.global = false → ∀ input,
         s.apply input = s.pattern.replaceFirst input s.replacement)
    ∧ (∀ compile input sub, Substitution.parse compile input = .ok sub →
         ∃ d rest p0 p1 ps, input.data = 's' :: d :: rest ∧
           splitByDelim d rest = p0 :: p1 :: ps ∧
           sub.global = (ps.headD []).contains 'g')
    ∧ ((Substitution.parse litCompile "s/o/0/g").map (fun s => s.apply "foo boo")
         = .ok "f00 b00")
    ∧ ((Substitution.parse litCompile "s/o/0/").map (fun s => s.apply "foo boo")
         = .ok "f0o boo") := by
  refine ⟨by rfl, ?_, ?_, ?_, by rfl, by rfl⟩
  · intro hg input
    simp [Substitution.apply, hg]
  · intro hg input
    simp [Substitution.apply, hg]
  · intro compile inp sub hparse
    cases hd : inp.data with
    | nil =>
      rw [parse_data_nil compile inp hd] at hparse
      exact Except.noConfusion hparse
    | cons c0 rest0 =>
      by_cases hc0 : c0 = 's'
      · subst hc0
        cases rest0 with
        | nil =>
          rw [parse_data_one compile inp hd] at hparse
          exact Except.noConfusion hparse
        | cons delim rest =>
          rw [parse_data_shape compile inp delim rest hd] at hparse
          cases hsp : splitByDelim delim rest with
          | nil =>
            rw [parseTail_short compile inp delim rest (by rw [hsp]; decide)] at hparse
            exact Except.noConfusion hparse
          | cons p0 ps =>
            cases ps with
            | nil =>
              rw [parseTail_short compile inp delim rest (by rw [hsp]; simp)] at hparse
              exact Except.noConfusion hparse
            | cons p1 rest2 =>
              rw [parseTail_parts compile inp delim rest p0 p1 rest2 hsp] at hparse
              cases hcomp : compile (String.mk p0) with
              | none =>
                rw [hcomp] at hparse
                exact Except.noConfusion hparse
              | some re =>
                rw [hcomp] at hparse
                refine ⟨delim, rest, p0, p1, rest2, rfl, hsp, ?_⟩
                injection hparse with h
                rw [← h]
      · rw [parse_data_not_s compile inp c0 rest0 hd hc0] at hparse
        exact Except.noConfusion hparse

/-- Witness for C9: the structural global/first-only conjuncts applied to the
concrete parse of `s/o/0/g`. -/
theorem substitution_apply_roundtrip_and_global_witness :
    ∃ sub, Substitution.parse litCompile "s/o/0/g" = .ok sub
      ∧ sub.global = true
      ∧ sub.apply "foo boo" = sub.pattern.replaceAll "foo boo" sub.replacement := by
  refine ⟨{ pattern := Regex.literal "o", replacement := "0", global := true },
    by rfl, rfl, ?_⟩
  exact (substitution_apply_roundtrip_and_global
    { pattern := Regex.literal "o", replacement := "0", global := true }).2.1
    rfl "foo boo"

/-! ### Claim about the rewrite engine (C5) -/

/-- C5: `apply_rule` selects exactly one strategy in fixed precedence order:
(1) an alternate command is resolved on the search path (failing if
unresolvable) with args passed through; (2) an argument rewrite joins the
args with single spaces, applies the substitution, and re-splits on
whitespace, leaving the binary unchanged; (3) a whole-command rewrite joins
binary and args, applies the substitution, re-splits, resolves the first
token as the new binary (failure to resolve being an error) and takes the
rest as the new args; (4) with no rewrite field set, binary and args pass
through unchanged. -/
theorem apply_rule_strategy_precedence (resolve : String → Option String)
    (compile : String → Option Regex) (bp : String) (args : List String)
    (rule : Rule) :
    (∀ alt, rule.alternateCommand = some alt →
       (∀ p, resolve alt = some p →
          applyRule resolve compile bp args rule = .ok (p, args)) ∧
       (resolve alt = none →
          applyRule resolve compile bp args rule
            = .error (.alternateCommandNotFound alt)))
    ∧ (rule.alternateCommand = none →
       ∀ rw sub, rule.argRewrite = some rw →
         Substitution.parse compile rw = .ok sub →
           applyRule resolve compile bp args rule
             = .ok (bp, splitWhitespace (sub.apply (String.intercalate " " args))))
    ∧ (rule.alternateCommand = none → rule.argRewrite = none →
       ∀ rw sub, rule.commandRewrite = some rw →
         Substitution.parse compile rw = .ok sub →
           ∀ t ts, splitWhitespace (sub.apply (String.intercalate " " (bp :: args)))
               = t :: ts →
             (∀ p, resolve t = some p →
                applyRule resolve compile bp args rule = .ok (p, ts)) ∧
             (resolve t = none →
                applyRule resolve compile bp args rule
                  = .error (.rewrittenCommandNotFound t)))
    ∧ (rule.alternateCommand = none → rule.argRewrite = none →
       rule.commandRewrite = none →
         applyRule resolve compile bp args rule = .ok (bp, args)) := by
  refine ⟨?_, ?_, ?_, ?_⟩
  · intro alt halt
    constructor
    · intro p hp
      simp [applyRule, halt, hp]
    · intro hn
      simp [applyRule, halt, hn]
  · intro hnone rw sub hrw hparse
    simp [applyRule, hnone, hrw, hparse, rewriteArgs]
  · intro hnone hnone2 rw sub hrw hparse t ts hsplit
    constructor
    · intro p hp
      simp [applyRule, hnone, hnone2, hrw, hparse, rewriteCommand, hsplit, hp]
    · intro hn
      simp [applyRule, hnone, hnone2, hrw, hparse, rewriteCommand, hsplit, hn]
  · intro h1 h2 h3
    simp [applyRule, h1, h2, h3]

/-- Witness for C5: a concrete alternate-command rule substitutes the
resolved alternate binary and keeps the args. -/
theorem apply_rule_strategy_precedence_witness :
    applyRule (fun n => if n = "pnpm" then some "/usr/bin/pnpm" else none)
      litCompile "/usr/bin/npm" ["install"] { alternateCommand := some "pnpm" }
      = .ok ("/usr/bin/pnpm", ["install"]) :=
  ((apply_rule_strategy_precedence
      (fun n => if n = "pnpm" then some "/usr/bin/pnpm" else none)
      litCompile "/usr/bin/npm" ["install"]
      { alternateCommand := some "pnpm" }).1 "pnpm" rfl).1 "/usr/bin/pnpm" (by decide)

/-! ### Claims about the hook lifecycle (C2, C3, C6) -/

/-- C2: when the matched rule sets an intercept hook and the pre-hook (if
any) succeeded, the intercept hook's exit code becomes the tool's final
exit code exactly, the wrapped command is never executed (the result does
not depend on the process-execution oracle and `commandExecuted` is false),
and no post-hook runs. -/
theorem intercept_hook_terminal (rules : List CompiledRule)
    (cmd : String) (args : List String) (cwd bp : String)
    (resolve : String → Option String) (compile : String → Option Regex)
    (pre intercept : Except Unit Int) (r : CompiledRule) (ih : String)
    (fb : String) (fa : List String) (c : Int)
    (hres : resolve cmd = some bp)
    (hmatch : findMatchingRule rules { binaryPath := bp, cwd := cwd, args := args }
      = some r)
    (hih : r.rule.interceptHook = some ih)
    (hpre : ∀ ph, r.rule.preHook = some ph → pre = .ok 0)
    (happly : applyRule resolve compile bp args r.rule = .ok (fb, fa))
    (hint : intercept = .ok c) (hc0 : 0 ≤ c) (hc255 : c < 256) :
    (∀ post post' exec exec',
       handleCommand rules cmd args cwd resolve compile pre intercept post exec
         = handleCommand rules cmd args cwd resolve compile pre intercept post' exec')
    ∧ (∀ post exec, ∃ o,
         handleCommand rules cmd args cwd resolve compile pre intercept post exec
           = .ok o
         ∧ o.exit = c.toNat ∧ o.commandExecuted = false ∧ o.postCtx = none) := by
  have hmod : toU8 c = c.toNat := by
    unfold toU8
    rw [Int.emod_eq_of_lt hc0 hc255]
  constructor
  · intro post post' exec exec'
    cases hph : r.rule.preHook with
    | none =>
      simp [handleCommand, hres, hmatch, happly, hph, hih, hint]
    | some ph =>
      have hpre0 := hpre ph hph
      simp [handleCommand, hres, hmatch, happly, hph, hih, hint, hpre0]
  · intro post exec
    cases hph : r.rule.preHook with
    | none =>
      refine ⟨⟨toU8 c, false, none,
          some ⟨bp, args, cwd, .intercept, some fb, some fa, none⟩, none⟩,
        ?_, hmod, rfl, rfl⟩
      simp [handleCommand, hres, hmatch, happly, hph, hih, hint]
    | some ph =>
      have hpre0 := hpre ph hph
      refine ⟨⟨toU8 c, false, some ⟨bp, args, cwd, .pre, none, none, none⟩,
          some ⟨bp, args, cwd, .intercept, some fb, some fa, none⟩, none⟩,
        ?_, hmod, rfl, rfl⟩
      simp [handleCommand, hres, hmatch, happly, hph, hih, hint, hpre0]

/-- Witness for C2: a concrete intercept-hook rule returns the hook's exit
code 77 and never consults the execution oracle. -/
theorem intercept_hook_terminal_witness :
    ∃ o, handleCommand
        [{ rule := { interceptHook := some "/h/i.sh" }, binaryRegex := none,
           cwdRegex := none, source := "t" }]
        "echo" ["hi"] "/p" (fun _ => some "/bin/echo") litCompile
        (.ok 0) (.ok 77) (.ok 0) (.error ())
      = .ok o ∧ o.exit = 77 ∧ o.commandExecuted = false ∧ o.postCtx = none := by
  obtain ⟨-, h2⟩ := intercept_hook_terminal
    [{ rule := { interceptHook := some "/h/i.sh" }, binaryRegex := none,
       cwdRegex := none, source := "t" }]
    "echo" ["hi"] "/p" "/bin/echo" (fun _ => some "/bin/echo") litCompile
    (.ok 0) (.ok 77)
    { rule := { interceptHook := some "/h/i.sh" }, binaryRegex := none,
      cwdRegex := none, source := "t" }
    "/h/i.sh" "/bin/echo" ["hi"] 77 rfl rfl rfl
    (fun ph hph => by simp at hph) rfl rfl (by decide) (by decide)
  obtain ⟨o, ho, he, hc, hp⟩ := h2 (.ok 0) (.error ())
  exact ⟨o, ho, by rw [he]; rfl, hc, hp⟩

/-- C3: when the matched rule sets a pre-hook and the pre-hook exits
non-zero, the invocation aborts with a `HookNonZeroExit` error, the wrapped
command is never executed (the result does not depend on the execution
oracle), and the tool's exit status is the failure code 1. -/
theorem pre_hook_nonzero_aborts (rules : List CompiledRule)
    (cmd : String) (args : List String) (cwd bp : String)
    (resolve : String → Option String) (compile : String → Option Regex)
    (pre : Except Unit Int) (r : CompiledRule) (ph : String)
    (fb : String) (fa : List String) (c : Int)
    (hres : resolve cmd = some bp)
    (hmatch : findMatchingRule rules { binaryPath := bp, cwd := cwd, args := args }
      = some r)
    (hph : r.rule.preHook = some ph)
    (hpre : pre = .ok c) (hc : c ≠ 0)
    (happly : applyRule resolve compile bp args r.rule = .ok (fb, fa)) :
    ∀ intercept post exec,
      handleCommand rules cmd args cwd resolve compile pre intercept post exec
        = .error (.hookNonZeroExit ph c)
      ∧ mainExit (handleCommand rules cmd args cwd resolve compile pre intercept
          post exec) = 1 := by
  intro intercept post exec
  have herr : handleCommand rules cmd args cwd resolve compile pre intercept post exec
      = .error (.hookNonZeroExit ph c) := by
    simp [handleCommand, hres, hmatch, happly, hph, hpre, hc]
  refine ⟨herr, ?_⟩
  rw [herr]
  rfl

/-- Witness for C3: a concrete pre-hook exiting 3 aborts with
`HookNonZeroExit` and overall exit 1, with the execution oracle never
consulted. -/
theorem pre_hook_nonzero_aborts_witness :
    handleCommand
        [{ rule := { preHook := some "/h/p.sh" }, binaryRegex := none,
           cwdRegex := none, source := "t" }]
        "echo" ["hi"] "/p" (fun _ => some "/bin/echo") litCompile
        (.ok 3) (.ok 0) (.ok 0) (.error ())
      = .error (.hookNonZeroExit "/h/p.sh" 3)
    ∧ mainExit (handleCommand
        [{ rule := { preHook := some "/h/p.sh" }, binaryRegex := none,
           cwdRegex := none, source := "t" }]
        "echo" ["hi"] "/p" (fun _ => some "/bin/echo") litCompile
        (.ok 3) (.ok 0) (.ok 0) (.error ())) = 1 :=
  pre_hook_nonzero_aborts
    [{ rule := { preHook := some "/h/p.sh" }, binaryRegex := none,
       cwdRegex := none, source := "t" }]
    "echo" ["hi"] "/p" "/bin/echo" (fun _ => some "/bin/echo") litCompile
    (.ok 3)
    { rule := { preHook := some "/h/p.sh" }, binaryRegex := none,
      cwdRegex := none, source := "t" }
    "/h/p.sh" "/bin/echo" ["hi"] 3 rfl rfl rfl rfl (by decide) rfl
    (.ok 0) (.ok 0) (.error ())

/-- C6: when the matched rule sets a post-hook (and no intercept hook), the
post-hook runs with an environment containing `TRAMP_EXIT_CODE` equal to the
wrapped command's real exit code — an unavailable exit code being treated
as 1 — and a failing or non-zero post-hook never changes the tool's final
exit code, which remains the wrapped command's exit code. -/
theorem post_hook_env_and_exit (rules : List CompiledRule)
    (cmd : String) (args : List String) (cwd bp : String)
    (resolve : String → Option String) (compile : String → Option Regex)
    (pre : Except Unit Int) (exec : Except Unit (Option Int))
    (r : CompiledRule) (ph : String) (fb : String) (fa : List String)
    (st : Option Int)
    (hres : resolve cmd = some bp)
    (hmatch : findMatchingRule rules { binaryPath := bp, cwd := cwd, args := args }
      = some r)
    (hpost : r.rule.postHook = some ph)
    (hihn : r.rule.interceptHook = none)
    (hpre : ∀ p, r.rule.preHook = some p → pre = .ok 0)
    (happly : applyRule resolve compile bp args r.rule = .ok (fb, fa))
    (hexec : exec = .ok st)
    (hlo : 0 ≤ st.getD 1) (hhi : st.getD 1 < 256) :
    (∀ post post' intercept,
       handleCommand rules cmd args cwd resolve compile pre intercept post exec
         = handleCommand rules cmd args cwd resolve compile pre intercept post' exec)
    ∧ (∀ post intercept, ∃ o pctx,
         handleCommand rules cmd args cwd resolve compile pre intercept post exec
           = .ok o
         ∧ o.exit = (st.getD 1).toNat
         ∧ o.commandExecuted = true
         ∧ o.postCtx = some pctx
         ∧ pctx.exitCode = some (st.getD 1)
         ∧ buildHookEnv pctx "TRAMP_EXIT_CODE" = some (toString (st.getD 1))
         ∧ (st = none → o.exit = 1)) := by
  have hmod : toU8 (st.getD 1) = (st.getD 1).toNat := by
    unfold toU8
    rw [Int.emod_eq_of_lt hlo hhi]
  constructor
  · intro post post' intercept
    cases hph : r.rule.preHook with
    | none =>
      simp [handleCommand, hres, hmatch, happly, hph, hihn, hexec, hpost]
    | some p =>
      have hpre0 := hpre p hph
      simp [handleCommand, hres, hmatch, happly, hph, hihn, hexec, hpost, hpre0]
  · intro post intercept
    cases hph : r.rule.preHook with
    | none =>
      refine ⟨⟨toU8 (st.getD 1), true, none, none,
          some ⟨bp, args, cwd, .post, some fb, some fa, some (st.getD 1)⟩⟩,
        ⟨bp, args, cwd, .post, some fb, some fa, some (st.getD 1)⟩, ?_,
        hmod, rfl, rfl, rfl, by simp [buildHookEnv, envInsert], ?_⟩
      · simp [handleCommand, hres, hmatch, happly, hph, hihn, hexec, hpost]
      · intro hst
        subst hst
        rfl
    | some p =>
      have hpre0 := hpre p hph
      refine ⟨⟨toU8 (st.getD 1), true, some ⟨bp, args, cwd, .pre, none, none, none⟩,
          none, some ⟨bp, args, cwd, .post, some fb, some fa, some (st.getD 1)⟩⟩,
        ⟨bp, args, cwd, .post, some fb, some fa, some (st.getD 1)⟩, ?_,
        hmod, rfl, rfl, rfl, by simp [buildHookEnv, envInsert], ?_⟩
      · simp [handleCommand, hres, hmatch, happly, hph, hihn, hexec, hpost, hpre0]
      · intro hst
        subst hst
        rfl

/-- Witness for C6: a concrete post-hook rule with a command exiting 42 and
a failing post-hook oracle yields final exit 42 and a post-hook environment
carrying `TRAMP_EXIT_CODE=42`. -/
theorem post_hook_env_and_exit_witness :
    ∃ o pctx, handleCommand
        [{ rule := { postHook := some "/h/q.sh" }, binaryRegex := none,
           cwdRegex := none, source := "t" }]
        "echo" ["hi"] "/p" (fun _ => some "/bin/echo") litCompile
        (.ok 0) (.ok 0) (.error ()) (.ok (some 42))
      = .ok o
      ∧ o.exit = 42 ∧ o.postCtx = some pctx
      ∧ buildHookEnv pctx "TRAMP_EXIT_CODE" = some "42" := by
  obtain ⟨-, h2⟩ := post_hook_env_and_exit
    [{ rule := { postHook := some "/h/q.sh" }, binaryRegex := none,
       cwdRegex := none, source := "t" }]
    "echo" ["hi"] "/p" "/bin/echo" (fun _ => some "/bin/echo") litCompile
    (.ok 0) (.ok (some 42))
    { rule := { postHook := some "/h/q.sh" }, binaryRegex := none,
      cwdRegex := none, source := "t" }
    "/h/q.sh" "/bin/echo" ["hi"] (some 42) rfl rfl rfl rfl
    (fun p hp => by simp at hp) rfl rfl (by decide) (by decide)
  obtain ⟨o, pctx, ho, he, -, hp, -, henv, -⟩ := h2 (.error ()) (.ok 0)
  exact ⟨o, pctx, ho, by rw [he]; rfl, hp, by rw [henv]; rfl⟩

/-- Witness for C10 at concrete contexts differing only in args. -/
theorem matching_independent_of_args_witness :
    CompiledRule.matches exCargoRule
        { binaryPath := "/bin/cargo", cwd := "/p", args := ["x"] }
      = CompiledRule.matches exCargoRule
        { binaryPath := "/bin/cargo", cwd := "/p", args := ["y", "z"] } :=
  (matching_independent_of_args [] exCargoRule
    { binaryPath := "/bin/cargo", cwd := "/p", args := ["x"] }
    { binaryPath := "/bin/cargo", cwd := "/p", args := ["y", "z"] }
    rfl rfl).1

end Tramp
